import Mathlib

/-!
Verification development for the NobodyWho session engine: a shallow
embedding of the data model (messages, tools, chat sessions), the
generation/tool-dispatch loop, the token stream with cancellation, and the
encoder/cross-encoder helpers, together with theorems settling the frozen
claims about them.

The repository snapshot contains the Python test-suite, demos and eval
scripts of the library, but not the binding/core implementation itself, so
the operational definitions below are modelled from the specification
(each such definition says so in its doc comment) and validated against
the behaviour the test-suite pins down.
-/

namespace NobodyWho

/-- Role of a message in a conversation history, as given by the spec's
data model: user, assistant, tool_call, tool_result. -/
inductive Role where
  | user
  | assistant
  | tool_call
  | tool_result
deriving DecidableEq, Repr

/-- A single structured tool call emitted by the model: a tool name and an
argument mapping (argument values are kept in serialized form). -/
structure ToolCall where
  name : String
  arguments : List (String × String)
deriving DecidableEq, Repr

/-- Modelled from the spec: a role-tagged message of the conversation
history, `{role, content, tool_calls: optional ordered list, tool_name:
optional}`. -/
structure Message where
  role : Role
  content : String
  tool_calls : List ToolCall
  tool_name : Option String
deriving DecidableEq, Repr

/-- Whether a registered callable is synchronous or suspension-capable. -/
inductive ToolKind where
  | sync
  | async
deriving DecidableEq, Repr

/-- A host-language callable as seen by the registration decorator: its
declared parameter names (obtained by introspection), whether it is
suspension-capable, and its behaviour on a serialized argument mapping.
A raised exception is modelled as the `Except.error` case. -/
structure Callable where
  name : String
  kind : ToolKind
  paramNames : List String
  run : List (String × String) → Except String String

/-- Modelled from the spec: a Tool Descriptor `{name, description,
parameter_schema, invoke}` built by the registration decorator (the
binding implementation is not in the snapshot). -/
structure Tool where
  name : String
  description : String
  paramSchema : List (String × String)
  kind : ToolKind
  invoke : List (String × String) → Except String String

/-- Error raised at tool construction time (surfaced as `TypeError` in the
Python binding). -/
inductive ToolError where
  | typeError
deriving DecidableEq, Repr

/-- Modelled from the spec: the `nobodywho.tool` registration decorator.
It introspects the callable's declared parameter names, cross-checks that
every key of the optional per-parameter description map matches a real
parameter name (mismatch is a construction-time `TypeError`), and wraps
the callable unchanged, for synchronous and suspension-capable callables
alike. The binding implementation is not in the snapshot. -/
def tool (description : String) (params : List (String × String)) (f : Callable) :
    Except ToolError Tool :=
  if params.all (fun p => f.paramNames.contains p.1) then
    Except.ok
      { name := f.name
        description := description
        paramSchema := f.paramNames.map (fun n => (n, ((params.lookup n).getD "")))
        kind := f.kind
        invoke := f.run }
  else
    Except.error ToolError.typeError

/-- Validation error for the vector helpers (surfaced as `ValueError`). -/
inductive SimError where
  | valueError
deriving DecidableEq, Repr

/-- Dot product of two equal-length vectors, modelled over the rationals
(the binding computes with floating point). -/
def dotProduct (a b : List ℚ) : ℚ :=
  (List.zipWith (· * ·) a b).sum

/-- Modelled from the spec: `cosine_similarity(a, b)` requires equal-length
inputs and fails with a validation error otherwise; on equal lengths it
returns the dot product divided by the product of the vector norms. The
floating-point square root of the binding is abstracted as the function
argument `sq` (the binding implementation is not in the snapshot). -/
def cosine_similarity (sq : ℚ → ℚ) (a b : List ℚ) : Except SimError ℚ :=
  if a.length = b.length then
    Except.ok (dotProduct a b / (sq (dotProduct a a) * sq (dotProduct b b)))
  else
    Except.error SimError.valueError

/-- Modelled from the spec: `rank(query, documents)` returns one relevance
score per document, order preserved. The cross-encoder scoring primitive
of the backend is abstracted as the function argument `score`. -/
def rank (score : String → String → ℚ) (query : String) (docs : List String) :
    List ℚ :=
  docs.map (score query)

/-- Descending comparison on (document, score) pairs, used by
`rank_and_sort`. -/
def scoreDesc (a b : String × ℚ) : Bool :=
  decide (b.2 ≤ a.2)

/-- Modelled from the spec: `rank_and_sort(query, documents)` returns the
(document, score) pairs sorted by descending score with a stable sort
(ties keep original order); the backend scoring primitive is abstracted as
`score`. -/
def rank_and_sort (score : String → String → ℚ) (query : String)
    (docs : List String) : List (String × ℚ) :=
  (docs.map (fun d => (d, score query d))).mergeSort scoreDesc

/-- Error that is fatal to a generation request (surfaced through the
Token Stream's failure channel). -/
inductive EngineError where
  | unknownTool (name : String)
deriving DecidableEq, Repr

/-- Look a tool up by exact name in the active tool set. -/
def lookupTool (tools : List Tool) (n : String) : Option Tool :=
  tools.find? (fun t => t.name == n)

/-- The textual content recorded for a tool invocation: the serialized
result on success, or the packaged error text when the callable raised. -/
def resultContent : Except String String → String
  | Except.ok s => s
  | Except.error e => e

/-- The `tool_result` message appended to history for one dispatched
call, correlated by tool name. -/
def toolResultMsg (t : Tool) (c : ToolCall) : Message :=
  { role := Role.tool_result
    content := resultContent (t.invoke c.arguments)
    tool_calls := []
    tool_name := some c.name }

/-- Modelled from the spec: the ToolDispatch state invokes each resolved
tool in the order the calls were declared, records one `tool_result`
message per call; an unknown tool name is a fatal error for the request.
A raised callable is packaged as the tool's result content, not an
abort. The engine implementation is not in the snapshot. -/
def dispatchCalls (tools : List Tool) : List ToolCall → Except EngineError (List Message)
  | [] => Except.ok []
  | c :: rest =>
    match lookupTool tools c.name with
    | none => Except.error (EngineError.unknownTool c.name)
    | some t =>
      match dispatchCalls tools rest with
      | Except.error e => Except.error e
      | Except.ok msgs => Except.ok (toolResultMsg t c :: msgs)

/-- One Generating → ToolDispatch alternation as decided by the model: the
assistant text produced up to the tool-call block, and the parsed calls. -/
structure ToolTurn where
  text : String
  calls : List ToolCall
deriving DecidableEq, Repr

/-- The model's behaviour for one request, as the engine observes it: a
sequence of tool-call turns followed by the final assistant text. -/
structure ModelScript where
  turns : List ToolTurn
  finalText : String
deriving DecidableEq, Repr

/-- The committed `assistant` message carrying the parsed tool_calls of
one turn. -/
def assistantMsg (turn : ToolTurn) : Message :=
  { role := Role.assistant, content := turn.text, tool_calls := turn.calls
    tool_name := none }

/-- The final committed `assistant` message of a completed request. -/
def finalMsg (s : String) : Message :=
  { role := Role.assistant, content := s, tool_calls := [], tool_name := none }

/-- The `user` message appended to history when a request starts. -/
def userMsg (s : String) : Message :=
  { role := Role.user, content := s, tool_calls := [], tool_name := none }

/-- Modelled from the spec: run the Generating ⇄ ToolDispatch alternation
of the state machine over the model's turns, committing an assistant
message and its tool results for each turn. -/
def runTurns (tools : List Tool) : List ToolTurn → Except EngineError (List Message)
  | [] => Except.ok []
  | turn :: rest =>
    match dispatchCalls tools turn.calls with
    | Except.error e => Except.error e
    | Except.ok rs =>
      match runTurns tools rest with
      | Except.error e => Except.error e
      | Except.ok tail => Except.ok (assistantMsg turn :: (rs ++ tail))

/-- Modelled from the spec: the Generation Engine on one request.
It appends the `user` message, alternates Generating and ToolDispatch
per the model script, and on Completed commits the final assistant
message. The engine implementation is not in the snapshot. -/
def runEngine (tools : List Tool) (prompt : String) (script : ModelScript) :
    Except EngineError (List Message) :=
  match runTurns tools script.turns with
  | Except.error e => Except.error e
  | Except.ok body => Except.ok (userMsg prompt :: (body ++ [finalMsg script.finalText]))

/-- Check that a list of tool calls pairs up 1:1, in order, with a list of
messages: equal counts, every message a `tool_result`, and the names
matching. -/
def namesMatch (calls : List ToolCall) (msgs : List Message) : Bool :=
  decide (calls.length = msgs.length) &&
    (List.zip calls msgs).all
      (fun p => decide (p.2.role = Role.tool_result) && decide (p.2.tool_name = some p.1.name))

/-- The history invariant of the spec's data model: every assistant
message is immediately followed by exactly one `tool_result` per entry of
its `tool_calls` list, names pairing 1:1 in order, and `tool_result`
messages appear nowhere else. -/
def toolPairingOk : List Message → Bool
  | [] => true
  | ⟨Role.assistant, _, tcs, _⟩ :: rest =>
    namesMatch tcs (rest.take tcs.length) && toolPairingOk (rest.drop tcs.length)
  | ⟨Role.tool_result, _, _, _⟩ :: _ => false
  | ⟨Role.user, _, _, _⟩ :: rest => toolPairingOk rest
  | ⟨Role.tool_call, _, _, _⟩ :: rest => toolPairingOk rest
termination_by l => l.length
decreasing_by
  all_goals simp [List.length_drop]
  all_goals omega

/-- Session state of one Chat: the conversation history (turn-scoped) and
the active tool set, system prompt and thinking flag (session-scoped). -/
structure ChatState where
  history : List Message
  tools : List Tool
  systemPrompt : Option String
  allowThinking : Bool

/-- Modelled from the spec: `set_tools` replaces the session's active tool
set. -/
def set_tools (s : ChatState) (ts : List Tool) : ChatState :=
  { s with tools := ts }

/-- Modelled from the spec: `reset_history` clears the conversation
history and nothing else. -/
def reset_history (s : ChatState) : ChatState :=
  { s with history := [] }

/-- Modelled from the spec: `set_chat_history` replaces the conversation
history with an explicit ordered list of role-tagged messages. -/
def set_chat_history (s : ChatState) (h : List Message) : ChatState :=
  { s with history := h }

/-- Modelled from the spec: `get_chat_history` exports the conversation
history as a plain ordered list of role-tagged messages. -/
def get_chat_history (s : ChatState) : List Message :=
  s.history

/-- Modelled from the spec: `ask` runs one generation request against the
session's active tool set and appends the produced exchange to the
history, returning the final assistant text. -/
def ask (s : ChatState) (prompt : String) (script : ModelScript) :
    Except EngineError (ChatState × String) :=
  match runEngine s.tools prompt script with
  | Except.error e => Except.error e
  | Except.ok msgs => Except.ok ({ s with history := s.history ++ msgs }, script.finalText)

/-- Modelled from the spec: the suspension-based ChatAsync variant is a
thin facade over the same core session state machine. -/
structure AsyncChat where
  core : ChatState

/-- The async variant of `set_chat_history`: delegates to the core. -/
def asyncSetChatHistory (c : AsyncChat) (h : List Message) : AsyncChat :=
  { core := set_chat_history c.core h }

/-- The async variant of `get_chat_history`: delegates to the core. -/
def asyncGetChatHistory (c : AsyncChat) : List Message :=
  get_chat_history c.core

/-- Events of the token-delivery machinery of one request: the backend
produces a token (`pull`, filling the in-flight slot), the consumer
receives the in-flight token (`deliver`), or the caller cancels
(`stop`). -/
inductive StreamAction where
  | pull
  | deliver
  | stop
deriving DecidableEq, Repr

/-- State of the cancellable token-delivery machinery: how many tokens the
backend has produced, the tokens delivered to the consumer, the single
token in flight, and the cancellation flag. -/
structure StreamState where
  pulled : Nat
  delivered : List String
  inflight : Option String
  cancelled : Bool
deriving DecidableEq, Repr

/-- Fresh delivery state of a new request. -/
def initStream : StreamState :=
  { pulled := 0, delivered := [], inflight := none, cancelled := false }

/-- Modelled from the spec: one step of the token-delivery machinery over
the token sequence `script` that unrestricted generation would produce.
Cancellation is cooperative: it is checked before each backend pull, while
a token already in flight is still delivered. -/
def streamStep (script : List String) (s : StreamState) : StreamAction → StreamState
  | StreamAction.pull =>
    match s.cancelled, s.inflight, script[s.pulled]? with
    | true, _, _ => s
    | false, some _, _ => s
    | false, none, some t => { s with pulled := s.pulled + 1, inflight := some t }
    | false, none, none => s
  | StreamAction.deliver =>
    match s.inflight with
    | some t => { s with delivered := s.delivered ++ [t], inflight := none }
    | none => s
  | StreamAction.stop => { s with cancelled := true }

/-- Run a sequence of delivery-machinery events. -/
def streamRun (script : List String) (s : StreamState) (as : List StreamAction) : StreamState :=
  as.foldl (streamStep script) s

/-- Size of the delivered-plus-in-flight token pool of a delivery state. -/
def streamPool (s : StreamState) : Nat :=
  s.delivered.length + s.inflight.toList.length

/-- State of a Token Stream handle over one generation request: the token
sequence the backend produces for this prompt and sampler configuration,
the buffer of tokens produced so far, the consumer's cursor, and the
count of backend decode invocations. -/
structure TokenStream where
  script : List String
  buffer : List String
  pos : Nat
  backendCalls : Nat
deriving DecidableEq, Repr

/-- The Token Stream of a fresh request. -/
def initTokenStream (script : List String) : TokenStream :=
  { script := script, buffer := [], pos := 0, backendCalls := 0 }

/-- Modelled from the spec: step-wise pull of the next token. Each
delivered token costs exactly one backend decode invocation; tokens are
buffered so later whole-result consumption reuses them. -/
def nextToken (ts : TokenStream) : Option String × TokenStream :=
  match ts.script[ts.pos]? with
  | some t =>
    (some t,
      { ts with
          buffer := ts.buffer ++ [t]
          pos := ts.pos + 1
          backendCalls := ts.backendCalls + 1 })
  | none => (none, ts)

/-- Pull `n` tokens step-wise (stopping silently at exhaustion). -/
def stepN (ts : TokenStream) : Nat → TokenStream
  | 0 => ts
  | n + 1 => stepN (nextToken ts).2 n

/-- Fuelled driver: iterate `nextToken` until the stream reports the end
sentinel, collecting delivered tokens. -/
def drainAux : Nat → TokenStream → List String × TokenStream
  | 0, ts => ([], ts)
  | n + 1, ts =>
    match nextToken ts with
    | (none, ts2) => ([], ts2)
    | (some t, ts2) =>
      let r := drainAux n ts2
      (t :: r.1, r.2)

/-- Iterate the stream to exhaustion, returning the delivered tokens in
order (the step-wise consumption mode). -/
def drain (ts : TokenStream) : List String × TokenStream :=
  drainAux ts.script.length ts

/-- Modelled from the spec: the blocking whole-result call. It drives the
same underlying stream to completion and returns the concatenation of the
full token buffer. -/
def completed (ts : TokenStream) : String × TokenStream :=
  let r := drain ts
  (String.join r.2.buffer, r.2)

/-- Canonical Token Stream state after `p` tokens have been consumed from
a fresh stream. -/
def mkTS (script : List String) (p : Nat) : TokenStream :=
  { script := script, buffer := script.take p, pos := p, backendCalls := p }

/-- The descending score comparison is transitive. -/
theorem scoreDesc_trans : ∀ a b c : String × ℚ, scoreDesc a b → scoreDesc b c → scoreDesc a c := by
  intro a b c h1 h2
  simp only [scoreDesc, decide_eq_true_eq] at *
  exact le_trans h2 h1

/-- The descending score comparison is total. -/
theorem scoreDesc_total : ∀ a b : String × ℚ, scoreDesc a b || scoreDesc b a := by
  intro a b
  simp only [scoreDesc, Bool.or_eq_true, decide_eq_true_eq]
  exact le_total b.2 a.2

/-- C7: `rank_and_sort(query, docs)` returns a permutation of `docs` each
paired with its score, sorted by descending score, and the sort is
stable: documents with equal scores keep their original relative order
(stated as: for every score value, filtering the output to that score
gives exactly the same-ordered filtering of the scored input). -/
theorem rank_and_sort_spec (score : String → String → ℚ) (query : String) (docs : List String) :
    (rank_and_sort score query docs).Perm (docs.map (fun d => (d, score query d)))
    ∧ (rank_and_sort score query docs).Pairwise (fun a b => b.2 ≤ a.2)
    ∧ ∀ c : ℚ,
        (rank_and_sort score query docs).filter (fun p => decide (p.2 = c))
          = (docs.map (fun d => (d, score query d))).filter (fun p => decide (p.2 = c)) := by
  refine ⟨List.mergeSort_perm _ _, ?_, ?_⟩
  · have h := List.sorted_mergeSort scoreDesc_trans scoreDesc_total
      (docs.map (fun d => (d, score query d)))
    exact h.imp (fun hab => by simpa [scoreDesc] using hab)
  · intro c
    show (List.mergeSort (docs.map (fun d => (d, score query d))) scoreDesc).filter _ = _
    set L := docs.map (fun d => (d, score query d)) with hL
    have hfs : List.Sublist (L.filter (fun p => decide (p.2 = c))) L := List.filter_sublist L
    have hfp : (L.filter (fun p => decide (p.2 = c))).Pairwise (fun a b => scoreDesc a b) := by
      apply List.pairwise_of_forall_mem_list
      intro a ha b hb
      have ha2 : a.2 = c := by simpa using (List.mem_filter.mp ha).2
      have hb2 : b.2 = c := by simpa using (List.mem_filter.mp hb).2
      simp [scoreDesc, ha2, hb2]
    have hsub : List.Sublist (L.filter (fun p => decide (p.2 = c))) (L.mergeSort scoreDesc) :=
      List.sublist_mergeSort scoreDesc_trans scoreDesc_total hfp hfs
    have hidem : (L.filter (fun p => decide (p.2 = c))).filter (fun p => decide (p.2 = c))
        = L.filter (fun p => decide (p.2 = c)) :=
      List.filter_eq_self.mpr (fun a ha => (List.mem_filter.mp ha).2)
    have hsub2 : List.Sublist (L.filter (fun p => decide (p.2 = c)))
        ((L.mergeSort scoreDesc).filter (fun p => decide (p.2 = c))) := by
      have h2 := hsub.filter (fun p => decide (p.2 = c))
      rwa [hidem] at h2
    have hperm : ((L.mergeSort scoreDesc).filter (fun p => decide (p.2 = c))).Perm
        (L.filter (fun p => decide (p.2 = c))) :=
      (List.mergeSort_perm L scoreDesc).filter _
    exact (hsub2.eq_of_length hperm.length_eq.symm).symm

/-- C8: `cosine_similarity` on vectors of unequal length raises a
validation error (`ValueError`) rather than returning a value. -/
theorem cosine_similarity_length_mismatch (sq : ℚ → ℚ) (a b : List ℚ)
    (h : a.length ≠ b.length) :
    cosine_similarity sq a b = Except.error SimError.valueError := by
  simp [cosine_similarity, h]

/-- Witness for C8 at the test's concrete input: a 2-vector against a
3-vector. -/
theorem cosine_similarity_length_mismatch_witness :
    cosine_similarity (fun _ => 0) [1, 2] [1, 2, 3] = Except.error SimError.valueError :=
  cosine_similarity_length_mismatch (fun _ => 0) [1, 2] [1, 2, 3] (by decide)

/-- Unfolding of the dot product on cons cells. -/
theorem dotProduct_cons (a b : ℚ) (l m : List ℚ) :
    dotProduct (a :: l) (b :: m) = a * b + dotProduct l m := by
  simp [dotProduct]

/-- The self dot product is a sum of squares, hence nonnegative. -/
theorem dotProduct_self_nonneg (v : List ℚ) : 0 ≤ dotProduct v v := by
  induction v with
  | nil => simp [dotProduct]
  | cons a l ih =>
    rw [dotProduct_cons]
    exact add_nonneg (mul_self_nonneg a) ih

/-- The self dot product of a vector with a nonzero entry is positive. -/
theorem dotProduct_self_pos (v : List ℚ) (hv : ∃ x ∈ v, x ≠ 0) : 0 < dotProduct v v := by
  induction v with
  | nil => simp at hv
  | cons a l ih =>
    rw [dotProduct_cons]
    rcases hv with ⟨x, hx, hx0⟩
    rcases List.mem_cons.mp hx with h | h
    · subst h
      exact add_pos_of_pos_of_nonneg (mul_self_pos.mpr hx0) (dotProduct_self_nonneg l)
    · exact add_pos_of_nonneg_of_pos (mul_self_nonneg a) (ih ⟨x, h, hx0⟩)

/-- C9: for every non-zero vector `v`, `cosine_similarity(v, v)` equals 1
within floating-point tolerance: whenever the square root used for the
norm is accurate on the self dot product to relative error 1/2001 (such a
rational approximation exists for every non-zero vector), the result is
within 1/1000 of 1. -/
theorem cosine_similarity_self (v : List ℚ) (sq : ℚ → ℚ)
    (hv : ∃ x ∈ v, x ≠ 0)
    (hsq : |sq (dotProduct v v) * sq (dotProduct v v) - dotProduct v v|
      ≤ dotProduct v v / 2001) :
    ∃ r, cosine_similarity sq v v = Except.ok r ∧ |r - 1| < 1 / 1000 := by
  have hd : 0 < dotProduct v v := dotProduct_self_pos v hv
  have habs := abs_le.mp hsq
  have hlt : dotProduct v v / 2001 < dotProduct v v := by
    rw [div_lt_iff₀ (by norm_num : (0:ℚ) < 2001)]
    linarith
  have hs2 : 0 < sq (dotProduct v v) * sq (dotProduct v v) := by
    linarith [habs.1]
  refine ⟨dotProduct v v / (sq (dotProduct v v) * sq (dotProduct v v)), ?_, ?_⟩
  · simp [cosine_similarity]
  · rw [div_sub_one hs2.ne', abs_div, abs_of_pos hs2, abs_sub_comm]
    have hle : |sq (dotProduct v v) * sq (dotProduct v v) - dotProduct v v|
          / (sq (dotProduct v v) * sq (dotProduct v v))
        ≤ (dotProduct v v / 2001) / (sq (dotProduct v v) * sq (dotProduct v v)) :=
      (div_le_div_iff_of_pos_right hs2).mpr hsq
    have hdq : 2001 * (dotProduct v v / 2001) = dotProduct v v := by field_simp
    have h2 : (dotProduct v v / 2001) / (sq (dotProduct v v) * sq (dotProduct v v))
        ≤ 1 / 2000 := by
      rw [div_le_div_iff₀ hs2 (by norm_num : (0:ℚ) < 2000)]
      linarith [habs.1]
    exact lt_of_le_of_lt (le_trans hle h2) (by norm_num)

/-- Witness for C9 at the repository test's own vector `[1, 2, 3]`: its
self dot product is 14 and the rational 3.7417 approximates its square
root well within the required relative error. -/
theorem cosine_similarity_self_witness :
    ∃ r, cosine_similarity (fun _ => 37417 / 10000) [1, 2, 3] [1, 2, 3] = Except.ok r
      ∧ |r - 1| < 1 / 1000 :=
  cosine_similarity_self [1, 2, 3] (fun _ => 37417 / 10000)
    ⟨1, List.mem_cons_self 1 [2, 3], by norm_num⟩
    (abs_le.mpr ⟨by norm_num [dotProduct], by norm_num [dotProduct]⟩)

/-- C10: immediately after `set_chat_history`, `get_chat_history` returns
the exact list that was set, in order, in both the blocking and the async
variants. -/
theorem chat_history_roundtrip (s : ChatState) (a : AsyncChat) (h : List Message) :
    get_chat_history (set_chat_history s h) = h
    ∧ asyncGetChatHistory (asyncSetChatHistory a h) = h :=
  ⟨rfl, rfl⟩

/-- C6: `set_tools` followed by `reset_history` clears the history but
leaves the newly set tool set unchanged; `reset_history` mutates only the
history, and the new tools are the ones a subsequent request dispatches
against. -/
theorem tools_survive_reset (s : ChatState) (ts : List Tool) (prompt : String)
    (script : ModelScript) :
    (reset_history (set_tools s ts)).tools = ts
    ∧ (reset_history (set_tools s ts)).history = []
    ∧ (reset_history (set_tools s ts)).systemPrompt = s.systemPrompt
    ∧ (reset_history (set_tools s ts)).allowThinking = s.allowThinking
    ∧ (set_tools s ts).history = s.history
    ∧ ask (reset_history (set_tools s ts)) prompt script
        = (runEngine ts prompt script).map
            (fun msgs =>
              ({ history := msgs, tools := ts, systemPrompt := s.systemPrompt,
                 allowThinking := s.allowThinking }, script.finalText)) := by
  refine ⟨rfl, rfl, rfl, rfl, rfl, ?_⟩
  cases hr : runEngine ts prompt script with
  | error e => simp [ask, reset_history, set_tools, hr, Except.map]
  | ok msgs => simp [ask, reset_history, set_tools, hr, Except.map]

/-- C4: registering a tool whose params description map contains a key
that is not one of the callable's declared parameter names raises a
construction-time `TypeError`; registering with only valid keys succeeds
and the resulting Tool is directly callable with the same input-output
semantics as the wrapped callable (synchronous or async alike). -/
theorem tool_registration_spec (description : String) (params : List (String × String))
    (f : Callable) :
    ((∀ p ∈ params, f.paramNames.contains p.1) →
      ∃ t, tool description params f = Except.ok t
        ∧ t.name = f.name ∧ t.kind = f.kind
        ∧ ∀ args, t.invoke args = f.run args)
    ∧ ((∃ p ∈ params, ¬ f.paramNames.contains p.1) →
      tool description params f = Except.error ToolError.typeError) := by
  constructor
  · intro hall
    have hc : params.all (fun p => f.paramNames.contains p.1) = true :=
      List.all_eq_true.mpr (fun p hp => hall p hp)
    refine ⟨{ name := f.name, description := description,
              paramSchema := f.paramNames.map (fun n => (n, ((params.lookup n).getD "")))
              kind := f.kind, invoke := f.run }, ?_, rfl, rfl, fun args => rfl⟩
    simp only [tool]
    rw [if_pos hc]
  · intro hex
    rcases hex with ⟨p, hp, hnp⟩
    have hc : ¬ (params.all (fun q => f.paramNames.contains q.1) = true) := by
      intro hall
      exact hnp (List.all_eq_true.mp hall p hp)
    simp only [tool]
    rw [if_neg hc]

/-- Witness for C4: the test-suite's bad registration (description key
`b` for a callable with sole parameter `a`) fails with `TypeError`, and a
valid registration of an async sparklify callable succeeds with the
wrapped behaviour preserved. -/
theorem tool_registration_spec_witness :
    tool "foobar" [("b", "uh-oh")]
        ⟨"oops", ToolKind.sync, ["a"], fun _ => Except.ok "x"⟩
      = Except.error ToolError.typeError
    ∧ ∃ t,
        tool "Applies the sparklify effect to a given piece of text."
            [("text", "the text to sparklify")]
            ⟨"sparklify", ToolKind.async, ["text"], fun _ => Except.ok "✨OK✨"⟩
          = Except.ok t
        ∧ t.name = "sparklify"
        ∧ t.kind = ToolKind.async
        ∧ ∀ args, t.invoke args
            = Callable.run ⟨"sparklify", ToolKind.async, ["text"], fun _ => Except.ok "✨OK✨"⟩ args :=
  ⟨(tool_registration_spec "foobar" [("b", "uh-oh")]
      ⟨"oops", ToolKind.sync, ["a"], fun _ => Except.ok "x"⟩).2
      ⟨("b", "uh-oh"), by simp, by decide⟩,
    (tool_registration_spec "Applies the sparklify effect to a given piece of text."
      [("text", "the text to sparklify")]
      ⟨"sparklify", ToolKind.async, ["text"], fun _ => Except.ok "✨OK✨"⟩).1 (by decide)⟩

/-- A successful dispatch returns exactly one message per call. -/
theorem dispatchCalls_ok_length (tools : List Tool) :
    ∀ (calls : List ToolCall) (rs : List Message),
      dispatchCalls tools calls = Except.ok rs → rs.length = calls.length := by
  intro calls
  induction calls with
  | nil =>
    intro rs h
    simp only [dispatchCalls] at h
    cases h
    rfl
  | cons c0 rest ih =>
    intro rs h
    simp only [dispatchCalls] at h
    cases hl : lookupTool tools c0.name with
    | none => rw [hl] at h; cases h
    | some t0 =>
      rw [hl] at h
      cases hd : dispatchCalls tools rest with
      | error e => rw [hd] at h; cases h
      | ok msgs =>
        rw [hd] at h
        cases h
        simp [ih msgs hd]

/-- A successful dispatch produces `tool_result` messages whose names pair
up 1:1, in order, with the dispatched calls. -/
theorem dispatchCalls_ok_namesMatch (tools : List Tool) :
    ∀ (calls : List ToolCall) (rs : List Message),
      dispatchCalls tools calls = Except.ok rs → namesMatch calls rs = true := by
  intro calls
  induction calls with
  | nil =>
    intro rs h
    simp only [dispatchCalls] at h
    cases h
    rfl
  | cons c0 rest ih =>
    intro rs h
    simp only [dispatchCalls] at h
    cases hl : lookupTool tools c0.name with
    | none => rw [hl] at h; cases h
    | some t0 =>
      rw [hl] at h
      cases hd : dispatchCalls tools rest with
      | error e => rw [hd] at h; cases h
      | ok msgs =>
        rw [hd] at h
        cases h
        have ihm := ih msgs hd
        simp only [namesMatch, Bool.and_eq_true, decide_eq_true_eq, List.all_eq_true] at ihm ⊢
        obtain ⟨hlen, hall⟩ := ihm
        refine ⟨by simp [hlen], ?_⟩
        intro p hp
        rcases List.mem_cons.mp (by simpa [List.zip_cons_cons] using hp) with h1 | h1
        · subst h1; simp [toolResultMsg]
        · exact hall p h1

/-- The block of messages committed by the turn loop keeps the pairing
invariant in front of any remainder that already satisfies it. -/
theorem runTurns_pairing (tools : List Tool) (tail : List Message)
    (htail : toolPairingOk tail = true) :
    ∀ (turns : List ToolTurn) (body : List Message),
      runTurns tools turns = Except.ok body → toolPairingOk (body ++ tail) = true := by
  intro turns
  induction turns with
  | nil =>
    intro body h
    simp only [runTurns] at h
    cases h
    simpa using htail
  | cons turn0 rest ih =>
    intro body h
    simp only [runTurns] at h
    cases hd : dispatchCalls tools turn0.calls with
    | error e => rw [hd] at h; cases h
    | ok rs =>
      rw [hd] at h
      cases hr : runTurns tools rest with
      | error e => rw [hr] at h; cases h
      | ok tl =>
        rw [hr] at h
        cases h
        have hlen : rs.length = turn0.calls.length := dispatchCalls_ok_length tools _ rs hd
        have hstep : (assistantMsg turn0 :: (rs ++ tl)) ++ tail
            = assistantMsg turn0 :: (rs ++ (tl ++ tail)) := by simp
        rw [hstep]
        simp only [assistantMsg]
        rw [toolPairingOk]
        rw [List.take_left' hlen, List.drop_left' hlen]
        rw [Bool.and_eq_true]
        exact ⟨dispatchCalls_ok_namesMatch tools _ rs hd, ih tl hr⟩

/-- C1: in the history of every completed request, the `tool_result`
messages right after each turn are in exact 1:1 correspondence, by count
and by name, with the `tool_calls` entries of the immediately preceding
assistant message (and `tool_result` messages appear nowhere else). -/
theorem tool_result_pairing (tools : List Tool) (prompt : String) (script : ModelScript)
    (hist : List Message) (h : runEngine tools prompt script = Except.ok hist) :
    toolPairingOk hist = true := by
  simp only [runEngine] at h
  cases hr : runTurns tools script.turns with
  | error e => rw [hr] at h; cases h
  | ok body =>
    rw [hr] at h
    cases h
    have htail : toolPairingOk [finalMsg script.finalText] = true := by
      simp [toolPairingOk, finalMsg, namesMatch]
    simp only [userMsg]
    rw [toolPairingOk]
    exact runTurns_pairing tools _ htail script.turns body hr

/-- Witness for C1: a concrete completed sparklify run with one tool call
and one tool result. -/
theorem tool_result_pairing_witness :
    toolPairingOk
      [ ⟨Role.user, "Please sparklify julemand", [], none⟩,
        ⟨Role.assistant, "", [⟨"sparklify", [("text", "julemand")]⟩], none⟩,
        ⟨Role.tool_result, "✨JULEMAND✨", [], some "sparklify"⟩,
        ⟨Role.assistant, "✨JULEMAND✨", [], none⟩ ] = true :=
  tool_result_pairing
    [⟨"sparklify", "Applies the sparklify effect to a given piece of text.",
      [("text", "")], ToolKind.sync, fun _ => Except.ok "✨JULEMAND✨"⟩]
    "Please sparklify julemand"
    ⟨[⟨"", [⟨"sparklify", [("text", "julemand")]⟩]⟩], "✨JULEMAND✨"⟩
    _ rfl

/-- A successful dispatch contains the `tool_result` message of every
dispatched call that resolves to a registered tool. -/
theorem dispatchCalls_ok_mem (tools : List Tool) (c : ToolCall) (t : Tool)
    (ht : lookupTool tools c.name = some t) :
    ∀ (calls : List ToolCall) (rs : List Message),
      dispatchCalls tools calls = Except.ok rs → c ∈ calls → toolResultMsg t c ∈ rs := by
  intro calls
  induction calls with
  | nil => intro rs h hc; simp at hc
  | cons c0 rest ih =>
    intro rs h hc
    simp only [dispatchCalls] at h
    cases hl : lookupTool tools c0.name with
    | none => rw [hl] at h; cases h
    | some t0 =>
      rw [hl] at h
      cases hd : dispatchCalls tools rest with
      | error e => rw [hd] at h; cases h
      | ok msgs =>
        rw [hd] at h
        cases h
        rcases List.mem_cons.mp hc with h1 | h1
        · subst h1
          rw [ht] at hl
          cases hl
          exact List.mem_cons_self _ _
        · exact List.mem_cons_of_mem _ (ih msgs hd h1)

/-- The body committed by the turn loop contains the `tool_result`
message of every call of every turn that resolves to a registered
tool. -/
theorem runTurns_ok_mem (tools : List Tool) (c : ToolCall) (t : Tool)
    (ht : lookupTool tools c.name = some t) :
    ∀ (turns : List ToolTurn) (body : List Message) (turn : ToolTurn),
      runTurns tools turns = Except.ok body → turn ∈ turns → c ∈ turn.calls →
      toolResultMsg t c ∈ body := by
  intro turns
  induction turns with
  | nil => intro body turn h hturn hc; simp at hturn
  | cons turn0 rest ih =>
    intro body turn h hturn hc
    simp only [runTurns] at h
    cases hd : dispatchCalls tools turn0.calls with
    | error e => rw [hd] at h; cases h
    | ok rs =>
      rw [hd] at h
      cases hr : runTurns tools rest with
      | error e => rw [hr] at h; cases h
      | ok tl =>
        rw [hr] at h
        cases h
        rcases List.mem_cons.mp hturn with h1 | h1
        · subst h1
          exact List.mem_cons_of_mem _
            (List.mem_append_left _ (dispatchCalls_ok_mem tools c t ht _ rs hd hc))
        · exact List.mem_cons_of_mem _
            (List.mem_append_right _ (ih tl turn hr h1 hc))

/-- C5: when a dispatched callable raises, the engine records the error
text as that tool's `tool_result` content in the history and the request
still runs to completion, ending with the final assistant message. -/
theorem tool_error_recorded (tools : List Tool) (prompt : String) (script : ModelScript)
    (hist : List Message) (h : runEngine tools prompt script = Except.ok hist)
    (turn : ToolTurn) (hturn : turn ∈ script.turns) (c : ToolCall) (hc : c ∈ turn.calls)
    (t : Tool) (ht : lookupTool tools c.name = some t)
    (e : String) (he : t.invoke c.arguments = Except.error e) :
    (⟨Role.tool_result, e, [], some c.name⟩ : Message) ∈ hist
    ∧ hist.getLast? = some (finalMsg script.finalText) := by
  simp only [runEngine] at h
  cases hr : runTurns tools script.turns with
  | error e2 => rw [hr] at h; cases h
  | ok body =>
    rw [hr] at h
    cases h
    constructor
    · have hm := runTurns_ok_mem tools c t ht script.turns body turn hr hturn hc
      have heq : toolResultMsg t c = ⟨Role.tool_result, e, [], some c.name⟩ := by
        simp [toolResultMsg, he, resultContent]
      rw [heq] at hm
      exact List.mem_cons_of_mem _ (List.mem_append_left _ hm)
    · have hsplit : userMsg prompt :: (body ++ [finalMsg script.finalText])
          = (userMsg prompt :: body) ++ [finalMsg script.finalText] := by simp
      rw [hsplit]
      exact List.getLast?_concat _

/-- Witness for C5: a concrete run in which the sole tool always raises;
the error text is recorded as the tool result and the request completes. -/
theorem tool_error_recorded_witness :
    (⟨Role.tool_result, "boom", [], some "boom_tool"⟩ : Message) ∈
      [ ⟨Role.user, "please boom", [], none⟩,
        ⟨Role.assistant, "calling boom", [⟨"boom_tool", [("x", "1")]⟩], none⟩,
        (⟨Role.tool_result, "boom", [], some "boom_tool"⟩ : Message),
        ⟨Role.assistant, "recovered", [], none⟩ ]
    ∧ ([ ⟨Role.user, "please boom", [], none⟩,
        ⟨Role.assistant, "calling boom", [⟨"boom_tool", [("x", "1")]⟩], none⟩,
        (⟨Role.tool_result, "boom", [], some "boom_tool"⟩ : Message),
        ⟨Role.assistant, "recovered", [], none⟩ ] : List Message).getLast?
      = some (finalMsg "recovered") :=
  tool_error_recorded
    [⟨"boom_tool", "always fails", [("x", "")], ToolKind.sync, fun _ => Except.error "boom"⟩]
    "please boom"
    ⟨[⟨"calling boom", [⟨"boom_tool", [("x", "1")]⟩]⟩], "recovered"⟩
    _ rfl
    ⟨"calling boom", [⟨"boom_tool", [("x", "1")]⟩]⟩ (List.mem_cons_self _ _)
    ⟨"boom_tool", [("x", "1")]⟩ (List.mem_cons_self _ _)
    ⟨"boom_tool", "always fails", [("x", "")], ToolKind.sync, fun _ => Except.error "boom"⟩ rfl
    "boom" rfl

/-- Concatenation of string lists distributes over append. -/
theorem join_append_str (l1 l2 : List String) :
    String.join (l1 ++ l2) = String.join l1 ++ String.join l2 := by
  apply String.ext
  simp [String.join_eq, List.map_append]

/-- One delivery-machinery step preserves the invariant that the
delivered tokens followed by the in-flight token are exactly the tokens
pulled from the backend so far. -/
theorem streamStep_inv (script : List String) (s : StreamState) (a : StreamAction)
    (h : s.delivered ++ s.inflight.toList = script.take s.pulled) :
    (streamStep script s a).delivered ++ (streamStep script s a).inflight.toList
      = script.take (streamStep script s a).pulled := by
  cases a with
  | pull =>
    cases hcan : s.cancelled with
    | true => simpa [streamStep, hcan] using h
    | false =>
      cases hinf : s.inflight with
      | some t => simpa [streamStep, hcan, hinf] using h
      | none =>
        cases hg : script[s.pulled]? with
        | none => simpa [streamStep, hcan, hinf, hg] using h
        | some t =>
          have h0 : s.delivered = script.take s.pulled := by simpa [hinf] using h
          simp [streamStep, hcan, hinf, hg, List.take_succ, h0]
  | deliver =>
    cases hinf : s.inflight with
    | none => simpa [streamStep, hinf] using h
    | some t =>
      have h0 : s.delivered ++ [t] = script.take s.pulled := by simpa [hinf] using h
      simpa [streamStep, hinf] using h0
  | stop => simpa [streamStep] using h

/-- The delivery invariant holds after any run of delivery-machinery
events. -/
theorem streamRun_inv (script : List String) (as : List StreamAction) :
    ∀ s : StreamState, s.delivered ++ s.inflight.toList = script.take s.pulled →
      (streamRun script s as).delivered ++ (streamRun script s as).inflight.toList
        = script.take (streamRun script s as).pulled := by
  induction as with
  | nil => intro s h; simpa [streamRun] using h
  | cons a rest ih =>
    intro s h
    have hstep := streamStep_inv script s a h
    have := ih (streamStep script s a) hstep
    simpa [streamRun] using this

/-- Once the cancellation flag is set, a step keeps it set, never grows
the delivered-plus-in-flight pool, and never removes delivered tokens. -/
theorem streamStep_cancelled (script : List String) (s : StreamState) (a : StreamAction)
    (h : s.cancelled = true) :
    (streamStep script s a).cancelled = true
    ∧ streamPool (streamStep script s a) = streamPool s
    ∧ s.delivered.length ≤ (streamStep script s a).delivered.length := by
  cases a with
  | pull => simp [streamStep, h]
  | deliver =>
    cases hinf : s.inflight with
    | none => simp [streamStep, hinf, h]
    | some t => simp [streamStep, hinf, streamPool, h]
  | stop => simp [streamStep, streamPool, h]

/-- Once cancellation has taken effect, any further run keeps the flag,
keeps the pool size, and never removes delivered tokens. -/
theorem streamRun_cancelled (script : List String) (bs : List StreamAction) :
    ∀ s : StreamState, s.cancelled = true →
      (streamRun script s bs).cancelled = true
      ∧ streamPool (streamRun script s bs) = streamPool s
      ∧ s.delivered.length ≤ (streamRun script s bs).delivered.length := by
  induction bs with
  | nil => intro s h; exact ⟨h, rfl, le_refl _⟩
  | cons a rest ih =>
    intro s h
    obtain ⟨h1, h2, h3⟩ := streamStep_cancelled script s a h
    obtain ⟨g1, g2, g3⟩ := ih (streamStep script s a) h1
    refine ⟨by simpa [streamRun] using g1, ?_, ?_⟩
    · have : streamPool (streamRun script (streamStep script s a) rest) = streamPool s :=
        g2.trans h2
      simpa [streamRun] using this
    · have : s.delivered.length ≤
          (streamRun script (streamStep script s a) rest).delivered.length :=
        le_trans h3 g3
      simpa [streamRun] using this

/-- The delivered tokens of any state satisfying the delivery invariant
form a prefix of the backend's full token sequence. -/
theorem delivered_is_front (script : List String) (s : StreamState)
    (h : s.delivered ++ s.inflight.toList = script.take s.pulled) :
    ∃ r, script = s.delivered ++ r := by
  refine ⟨s.inflight.toList ++ script.drop s.pulled, ?_⟩
  rw [← List.append_assoc, h, List.take_append_drop]

/-- C2: after `stop` is invoked on a live stream, stopping again has no
further effect (idempotence), at most the single token already in flight
is still delivered afterwards, and the committed text is a prefix of what
unrestricted generation would have produced. -/
theorem stream_cancellation (script : List String) (as bs : List StreamAction) :
    streamStep script (streamStep script (streamRun script initStream as) StreamAction.stop)
        StreamAction.stop
      = streamStep script (streamRun script initStream as) StreamAction.stop
    ∧ (streamRun script
          (streamStep script (streamRun script initStream as) StreamAction.stop)
          bs).delivered.length
        ≤ (streamRun script initStream as).delivered.length + 1
    ∧ ∃ r, String.join script
        = String.join (streamRun script
            (streamStep script (streamRun script initStream as) StreamAction.stop)
            bs).delivered ++ r := by
  set s := streamRun script initStream as with hs
  set s1 := streamStep script s StreamAction.stop with hs1
  have hcan : s1.cancelled = true := by simp [hs1, streamStep]
  refine ⟨?_, ?_, ?_⟩
  · simp only [streamStep]
    rw [← hcan]
  · obtain ⟨g1, g2, g3⟩ := streamRun_cancelled script bs s1 hcan
    have h1 : (streamRun script s1 bs).delivered.length
        ≤ streamPool (streamRun script s1 bs) := Nat.le_add_right _ _
    rw [g2] at h1
    have h2 : streamPool s1 = streamPool s := by simp [hs1, streamStep, streamPool]
    rw [h2] at h1
    have h3 : streamPool s ≤ s.delivered.length + 1 := by
      cases hi : s.inflight <;> simp [streamPool, hi]
    exact le_trans h1 h3
  · have hinv0 : initStream.delivered ++ initStream.inflight.toList
        = script.take initStream.pulled := by simp [initStream]
    have hinv1 := streamRun_inv script as initStream hinv0
    have hinv2 := streamStep_inv script s StreamAction.stop (by simpa [hs] using hinv1)
    have hinv3 := streamRun_inv script bs s1 (by simpa [hs1] using hinv2)
    obtain ⟨r, hr⟩ := delivered_is_front script (streamRun script s1 bs) hinv3
    refine ⟨String.join r, ?_⟩
    conv_lhs => rw [hr]
    exact join_append_str _ _

/-- Pulling the next token from a canonical stream state below the end of
the script delivers the token under the cursor and advances by one. -/
theorem nextToken_mkTS_lt (script : List String) (p : Nat) (h : p < script.length) :
    nextToken (mkTS script p) = (some script[p], mkTS script (p + 1)) := by
  unfold nextToken mkTS
  simp only [List.getElem?_eq_getElem h]
  rw [List.take_succ, List.getElem?_eq_getElem h]
  rfl

/-- Pulling the next token from an exhausted canonical stream state
returns the end sentinel and leaves the state unchanged. -/
theorem nextToken_mkTS_ge (script : List String) (p : Nat) (h : script.length ≤ p) :
    nextToken (mkTS script p) = (none, mkTS script p) := by
  simp [nextToken, mkTS, List.getElem?_eq_none h]

/-- Step-wise consumption of `k` tokens from a canonical stream state
advances the cursor by `k`, capped at the script length. -/
theorem stepN_mkTS (script : List String) :
    ∀ (k p : Nat), p ≤ script.length →
      stepN (mkTS script p) k = mkTS script (min (p + k) script.length) := by
  intro k
  induction k with
  | zero =>
    intro p hp
    simp [stepN, Nat.min_eq_left hp]
  | succ n ih =>
    intro p hp
    by_cases h : p < script.length
    · simp only [stepN]
      rw [nextToken_mkTS_lt script p h]
      rw [ih (p + 1) h]
      congr 1
      omega
    · simp only [stepN]
      rw [nextToken_mkTS_ge script p (not_lt.mp h)]
      rw [ih p hp]
      congr 1
      omega

/-- Iterating a canonical stream state to exhaustion delivers exactly the
remaining tokens of the script, in order, and ends at the script end. -/
theorem drainAux_mkTS (script : List String) :
    ∀ (n p : Nat), p ≤ script.length → script.length - p ≤ n →
      drainAux n (mkTS script p) = (script.drop p, mkTS script script.length) := by
  intro n
  induction n with
  | zero =>
    intro p hp hf
    have hpe : p = script.length := by omega
    subst hpe
    simp [drainAux, List.drop_length]
  | succ n ih =>
    intro p hp hf
    by_cases h : p < script.length
    · simp only [drainAux]
      rw [nextToken_mkTS_lt script p h]
      dsimp only
      rw [ih (p + 1) h (by omega)]
      rw [List.drop_eq_getElem_cons h]
    · have hpe : p = script.length := by omega
      subst hpe
      simp only [drainAux]
      rw [nextToken_mkTS_ge script _ (le_refl _)]
      simp [List.drop_length]

/-- Whole-stream iteration from a canonical state. -/
theorem drain_mkTS (script : List String) (p : Nat) (hp : p ≤ script.length) :
    drain (mkTS script p) = (script.drop p, mkTS script script.length) :=
  drainAux_mkTS script script.length p hp (Nat.sub_le _ _)

/-- The blocking whole-result call from any canonical state returns the
concatenation of the full script. -/
theorem completed_mkTS (script : List String) (p : Nat) (hp : p ≤ script.length) :
    completed (mkTS script p) = (String.join script, mkTS script script.length) := by
  show (String.join (drain (mkTS script p)).2.buffer, (drain (mkTS script p)).2) = _
  rw [drain_mkTS script p hp]
  simp [mkTS, List.take_length]

/-- C3: the blocking whole-result call and the concatenation of step-wise
iteration produce identical text for the same backend token sequence;
mixing the styles on one stream still yields the full text, and the
backend is invoked exactly once per token, with no duplication. -/
theorem consumption_mode_equiv (script : List String) (k : Nat) :
    String.join (drain (initTokenStream script)).1 = (completed (initTokenStream script)).1
    ∧ (completed (initTokenStream script)).1 = String.join script
    ∧ (completed (stepN (initTokenStream script) k)).1 = String.join script
    ∧ (completed (stepN (initTokenStream script) k)).2.backendCalls = script.length
    ∧ (drain (initTokenStream script)).2.backendCalls = script.length := by
  have h0 : initTokenStream script = mkTS script 0 := by simp [initTokenStream, mkTS]
  have hstep := stepN_mkTS script k 0 (Nat.zero_le _)
  refine ⟨?_, ?_, ?_, ?_, ?_⟩
  · rw [h0, drain_mkTS script 0 (Nat.zero_le _), completed_mkTS script 0 (Nat.zero_le _)]
    simp
  · rw [h0, completed_mkTS script 0 (Nat.zero_le _)]
  · rw [h0, hstep, completed_mkTS script _ (min_le_right _ _)]
  · rw [h0, hstep, completed_mkTS script _ (min_le_right _ _)]
    rfl
  · rw [h0, drain_mkTS script 0 (Nat.zero_le _)]
    rfl

end NobodyWho
